import Mathlib

/-!
# Verification of the s3web static-site core

Shallow embedding of the template/layout resolution engine and action-language
parser of the s3web repository (package `site` and package `action`), together
with proofs about the embedded definitions.

Conventions used throughout:

* Go byte strings are modelled as `List Char`; all inputs considered here are
  ASCII, so one `Char` corresponds to one byte.
* Go maps are modelled as association lists with overwrite-on-insert
  semantics (`lookupKey` / `setKey` / `delKey`).
* `time.Time` values are modelled as `Nat` with `0` playing the role of the
  zero `time.Time` (the zero time is minimal for `Time.After`, so `maxTime`
  is the `Nat` maximum).
* Fallible Go functions return `Except String α`, carrying the formatted
  error string the Go code would produce.
-/

namespace S3Web

/-! ## Association lists modelling Go maps -/

/-- Lookup in a Go map modelled as an association list (`m[k]`). -/
def lookupKey {α : Type} (m : List (String × α)) (k : String) : Option α :=
  match m with
  | [] => none
  | (k', v) :: rest => if k' = k then some v else lookupKey rest k

/-- Insertion into a Go map (`m[k] = v`), overwriting any previous binding. -/
def setKey {α : Type} (m : List (String × α)) (k : String) (v : α) :
    List (String × α) :=
  match m with
  | [] => [(k, v)]
  | (k', v') :: rest => if k' = k then (k, v) :: rest else (k', v') :: setKey rest k v

/-- Deletion from a Go map (`delete(m, k)`). -/
def delKey {α : Type} (m : List (String × α)) (k : String) : List (String × α) :=
  match m with
  | [] => []
  | (k', v') :: rest => if k' = k then delKey rest k else (k', v') :: delKey rest k

theorem lookupKey_setKey_self {α : Type} (m : List (String × α)) (k : String) (v : α) :
    lookupKey (setKey m k v) k = some v := by
  induction m with
  | nil => simp [setKey, lookupKey]
  | cons hd tl ih =>
    obtain ⟨k', v'⟩ := hd
    by_cases h : k' = k <;> simp [setKey, lookupKey, h, ih]

theorem lookupKey_setKey_ne {α : Type} (m : List (String × α)) (k k' : String) (v : α)
    (h : k ≠ k') : lookupKey (setKey m k v) k' = lookupKey m k' := by
  induction m with
  | nil => simp [setKey, lookupKey, h]
  | cons hd tl ih =>
    obtain ⟨k₀, v₀⟩ := hd
    by_cases h₀ : k₀ = k <;> by_cases h₁ : k₀ = k' <;>
      simp_all [setKey, lookupKey]

theorem lookupKey_delKey_self {α : Type} (m : List (String × α)) (k : String) :
    lookupKey (delKey m k) k = none := by
  induction m with
  | nil => simp [delKey, lookupKey]
  | cons hd tl ih =>
    obtain ⟨k', v'⟩ := hd
    by_cases h : k' = k <;> simp [delKey, lookupKey, h, ih]

theorem lookupKey_delKey_ne {α : Type} (m : List (String × α)) (k k' : String)
    (h : k ≠ k') : lookupKey (delKey m k) k' = lookupKey m k' := by
  induction m with
  | nil => simp [delKey, lookupKey]
  | cons hd tl ih =>
    obtain ⟨k₀, v₀⟩ := hd
    by_cases h₀ : k₀ = k <;> by_cases h₁ : k₀ = k' <;>
      simp_all [delKey, lookupKey]

/-! ## List toolkit shared by the scanner and trimming proofs -/

theorem takeWhile_append_of_all {α : Type} (p : α → Bool) (l₁ l₂ : List α)
    (h : ∀ a ∈ l₁, p a) : (l₁ ++ l₂).takeWhile p = l₁ ++ l₂.takeWhile p := by
  induction l₁ with
  | nil => simp
  | cons hd tl ih =>
    have hp : p hd := h hd (by simp)
    simp only [List.cons_append, List.takeWhile_cons, hp]
    simp [ih fun a ha => h a (by simp [ha])]

theorem dropWhile_append_of_all {α : Type} (p : α → Bool) (l₁ l₂ : List α)
    (h : ∀ a ∈ l₁, p a) : (l₁ ++ l₂).dropWhile p = l₂.dropWhile p := by
  induction l₁ with
  | nil => simp
  | cons hd tl ih =>
    have hp : p hd := h hd (by simp)
    simp only [List.cons_append, List.dropWhile_cons, hp]
    exact ih fun a ha => h a (by simp [ha])

theorem takeWhile_append_of_stop {α : Type} (p : α → Bool) (l₁ l₂ : List α)
    (h : l₁.dropWhile p ≠ []) : (l₁ ++ l₂).takeWhile p = l₁.takeWhile p := by
  induction l₁ with
  | nil => simp [List.dropWhile] at h
  | cons hd tl ih =>
    by_cases hp : p hd
    · simp only [List.dropWhile_cons, hp, if_true] at h
      simp [List.takeWhile_cons, hp, ih h]
    · simp [List.takeWhile_cons, hp]

theorem dropWhile_eq_drop_of_takeWhile {α : Type} (p : α → Bool) (l : List α) :
    l.dropWhile p = l.drop (l.takeWhile p).length := by
  induction l with
  | nil => simp
  | cons hd tl ih =>
    by_cases hp : p hd <;> simp [List.takeWhile_cons, List.dropWhile_cons, hp, ih]

theorem reverse_drop_reverse {α : Type} (l : List α) (n : Nat) :
    (l.reverse.drop n).reverse = l.take (l.length - n) := by
  induction l generalizing n with
  | nil => simp
  | cons hd tl ih =>
    cases hn : (tl.length + 1 - n) with
    | zero =>
      have hge : tl.length + 1 ≤ n := by omega
      have : (hd :: tl).reverse.length ≤ n := by simp; omega
      rw [List.drop_eq_nil_of_le this]
      simp [hn]
    | succ m =>
      have hlt : n ≤ tl.length := by omega
      have hsplit : (hd :: tl).reverse.drop n = tl.reverse.drop n ++ [hd] := by
        simp only [List.reverse_cons]
        rw [List.drop_append_of_le_length (by simp [hlt])]
      rw [hsplit]
      simp only [List.reverse_append, List.reverse_cons, List.reverse_nil,
        List.nil_append, List.singleton_append, ih]
      have : tl.length - n = m := by omega
      simp [hn, this]

/-! ## Models of Go standard-library string helpers -/

/-- Character class of `unicode.IsSpace` restricted to the ASCII range
(space, tab, newline, carriage return, vertical tab, form feed); all inputs
in this development are ASCII. -/
def isGoSpace (c : Char) : Bool :=
  c = ' ' || c = '\t' || c = '\n' || c = '\r' || c = Char.ofNat 11 || c = Char.ofNat 12

/-- Model of `bytes.TrimSpace`: trim whitespace from both ends
(`TrimFunc(s, unicode.IsSpace)`); the right trim is expressed through
`reverse`. -/
def goTrimSpace (l : List Char) : List Char :=
  ((l.dropWhile isGoSpace).reverse.dropWhile isGoSpace).reverse

/-! ## Final data production of `site.readResource` (claim C2)

`site.readResource` (src/unnamed/part_000, lines 92 and 118) produces the
final bytes of a rendered page as `append(bytes.TrimSpace(data), '\n')`. -/

/-- Embedding of `r.Data = append(bytes.TrimSpace(data), '\n')` from
`site.readResource`: the final resource bytes computed from the rendered
output. -/
def finalizeData (rendered : List Char) : List Char :=
  goTrimSpace rendered ++ ['\n']

/-- Final bytes as the specification's words describe them for claim C2:
the rendered output with only the trailing whitespace removed and exactly one
newline appended. Stated from the spec, for comparison with `finalizeData`. -/
def specTrimTrailingNewline (rendered : List Char) : List Char :=
  (rendered.reverse.dropWhile isGoSpace).reverse ++ ['\n']

theorem head?_dropWhile_false {α : Type} (p : α → Bool) (l : List α) (a : α)
    (h : (l.dropWhile p).head? = some a) : p a = false := by
  induction l with
  | nil => simp [List.dropWhile] at h
  | cons hd tl ih =>
    rw [List.dropWhile_cons] at h
    cases hp : p hd with
    | true =>
      rw [hp] at h
      simp only [if_true] at h
      exact ih h
    | false =>
      rw [hp] at h
      simp only [Bool.false_eq_true, if_false, List.head?_cons, Option.some_inj] at h
      subst h
      exact hp

/-- Claim C2, counterexample: on the rendered output `" a"` the final bytes
are `"a\n"`, not the trailing-trim-only `" a\n"` the claim describes, because
`bytes.TrimSpace` removes leading whitespace as well. -/
theorem c2_counterexample :
    finalizeData [' ', 'a'] ≠ specTrimTrailingNewline [' ', 'a'] := by
  decide

/-- Claim C2 (amended): the final rendered bytes equal the rendered output
with both leading and trailing whitespace removed and exactly one newline
appended; every byte from the first non-whitespace byte through the last
non-whitespace byte is reproduced unchanged (the middle is a contiguous
slice of the rendered output). -/
theorem c2_finalize_slice (d : List Char) :
    finalizeData d =
      (d.drop (d.takeWhile isGoSpace).length).take
          (d.length - (d.takeWhile isGoSpace).length -
            (d.reverse.takeWhile isGoSpace).length) ++ ['\n'] := by
  by_cases hnil : d.dropWhile isGoSpace = []
  · have hall : d.takeWhile isGoSpace = d := by
      have := List.takeWhile_append_dropWhile (p := isGoSpace) (l := d)
      rw [hnil, List.append_nil] at this
      exact this
    have hlen : (d.takeWhile isGoSpace).length = d.length := by rw [hall]
    have hdrop : d.drop (d.takeWhile isGoSpace).length = [] := by
      rw [hlen, List.drop_length]
    simp [finalizeData, goTrimSpace, hnil, hdrop]
  · set l := d.dropWhile isGoSpace with hl
    set t := (l.reverse.takeWhile isGoSpace).length with ht
    have hstep1 : l.reverse.dropWhile isGoSpace = l.reverse.drop t := by
      rw [ht]; exact dropWhile_eq_drop_of_takeWhile isGoSpace l.reverse
    have hstep2 : (l.reverse.drop t).reverse = l.take (l.length - t) :=
      reverse_drop_reverse l t
    have hmid : goTrimSpace d = l.take (l.length - t) := by
      rw [goTrimSpace, ← hl, hstep1, hstep2]
    -- the trailing-whitespace count of `d` equals that of `l`
    have hsplit : d = d.takeWhile isGoSpace ++ l := by
      rw [hl]; exact (List.takeWhile_append_dropWhile (p := isGoSpace) (l := d)).symm
    have hrev : d.reverse = l.reverse ++ (d.takeWhile isGoSpace).reverse := by
      conv_lhs => rw [hsplit]
      simp
    have hlrev_stop : l.reverse.dropWhile isGoSpace ≠ [] := by
      intro hcontra
      have ha : l.head? = some (l.head hnil) := List.head?_eq_head hnil
      have hafalse : isGoSpace (l.head hnil) = false :=
        head?_dropWhile_false isGoSpace d (l.head hnil) ha
      have hmem : l.head hnil ∈ l.reverse := by
        rw [List.mem_reverse]
        exact List.mem_of_mem_head? ha
      have hallrev : ∀ x ∈ l.reverse, isGoSpace x := by
        rw [← List.dropWhile_eq_nil_iff]
        exact hcontra
      have := hallrev (l.head hnil) hmem
      rw [hafalse] at this
      exact Bool.false_ne_true this
    have htrail : (d.reverse.takeWhile isGoSpace).length = t := by
      rw [hrev, takeWhile_append_of_stop isGoSpace _ _ hlrev_stop, ht]
    have hldrop : l = d.drop (d.takeWhile isGoSpace).length := by
      rw [hl]; exact dropWhile_eq_drop_of_takeWhile isGoSpace d
    have hllen : l.length = d.length - (d.takeWhile isGoSpace).length := by
      rw [hldrop, List.length_drop]
    rw [finalizeData, hmid, htrail, ← hldrop, hllen]

/-! ## Front-matter extraction (`readFileWithFrontMatter`, claim C9)

Embedding of `readFileWithFrontMatter` from src/unnamed/part_000 (lines
188-216).  The front-matter delimiters are the RE2 patterns
`(?m)\A{\s*` (`frontStart`) and `(?m)^}\s*$` (`frontEnd`); the masking step
overwrites every non-newline byte of `data[:m[1]]` with a space, where `m`
is the leftmost `frontEnd` match. -/

/-- Character class of RE2 `\s` (`[\t\n\f\r ]`, form feed written as
`Char.ofNat 12`). -/
def isPerlSpace (c : Char) : Bool :=
  c = ' ' || c = '\t' || c = '\n' || c = Char.ofNat 12 || c = '\r'

/-- Position `i` is a line start of `data` (`(?m)^`): offset zero or just
after a newline. -/
def lineStart (data : List Char) (i : Nat) : Bool :=
  i = 0 || data.get? (i - 1) = some '\n'

/-- Largest position `p` in `[j, j+run)` holding a newline, where `run`
bounds the whitespace run; used for the greedy `\s*$` backtracking. -/
def lastNewlinePos (data : List Char) (j run : Nat) : Option Nat :=
  (((List.range run).filter (fun k => data.get? (j + k) = some '\n')).getLast?).map
    (fun k => j + k)

/-- End offset of a greedy `\s*$` match starting at offset `j` (RE2
leftmost-first semantics: the quantifier takes as many `\s` characters as
possible subject to `$` holding at the end — end of input, or just before a
newline inside the whitespace run). -/
def greedyWsEnd (data : List Char) (j : Nat) : Option Nat :=
  if j + ((data.drop j).takeWhile isPerlSpace).length = data.length then
    some data.length
  else
    lastNewlinePos data j ((data.drop j).takeWhile isPerlSpace).length

/-- End offset of a `(?m)^}\s*$` match beginning at offset `i`, if any. -/
def matchEndAt (data : List Char) (i : Nat) : Option Nat :=
  if lineStart data i ∧ data.get? i = some '}' then greedyWsEnd data (i + 1)
  else none

/-- Model of `frontEnd.FindIndex(data)[1]`: end offset of the leftmost
`(?m)^}\s*$` match in `data`. -/
def frontEndIdx (data : List Char) : Option Nat :=
  (List.range (data.length + 1)).findSome? (fun i => matchEndAt data i)

/-- Model of `frontStart.FindIndex(data) != nil`: `(?m)\A{\s*` matches iff
the data begins with `{`. -/
def hasFrontStart (data : List Char) : Bool :=
  data.head? = some '{'

/-- Masking loop of `readFileWithFrontMatter`: overwrite every byte of
`data[:e]` other than `'\n'` with a space, leaving the rest untouched. -/
def maskFrontMatter (data : List Char) (e : Nat) : List Char :=
  match data, e with
  | [], _ => []
  | c :: rest, 0 => c :: rest
  | c :: rest, e + 1 => (if c = '\n' then c else ' ') :: maskFrontMatter rest e

/-- Embedding of `readFileWithFrontMatter` (src/unnamed/part_000,
lines 188-216).  The file's bytes are supplied as `data` (the
`ioutil.ReadFile` step); the strict decode of the front-matter span into the
caller's structure (`DecodeConfig`, generic in the Go code over the target
value `fm`) is supplied as the `decode` argument.  Returns the possibly
masked bytes and the has-front-matter flag. -/
def readFileWithFrontMatter (decode : List Char → Except String Unit)
    (data : List Char) : Except String (List Char × Bool) :=
  if hasFrontStart data = false then .ok (data, false)
  else
    match frontEndIdx data with
    | none => .ok (data, false)
    | some e =>
      match decode (data.take e) with
      | .error err => .error err
      | .ok _ => .ok (maskFrontMatter data e, true)

/-- Frame conditions claim C9 states for the masked buffer: same length,
newlines at exactly the same positions, non-newline bytes inside the span
replaced by spaces, bytes after the span unchanged. -/
def maskSpec (data data' : List Char) (e : Nat) : Prop :=
  data'.length = data.length ∧
  (∀ i, i < data.length → ((data'.get? i = some '\n') ↔ (data.get? i = some '\n'))) ∧
  (∀ i, i < e → ∀ c, data.get? i = some c → c ≠ '\n' → data'.get? i = some ' ') ∧
  (∀ i, e ≤ i → data'.get? i = data.get? i)

theorem maskFrontMatter_get? (data : List Char) (e i : Nat) :
    (maskFrontMatter data e).get? i =
      if i < e then (data.get? i).map (fun c => if c = '\n' then c else ' ')
      else data.get? i := by
  induction data generalizing e i with
  | nil => simp [maskFrontMatter]
  | cons hd tl ih =>
    cases e with
    | zero => simp [maskFrontMatter]
    | succ e' =>
      cases i with
      | zero => simp [maskFrontMatter]
      | succ i' =>
        simp only [maskFrontMatter, List.get?_cons_succ]
        rw [ih e' i']
        have : i' + 1 < e' + 1 ↔ i' < e' := by omega
        simp [this]

theorem maskFrontMatter_length (data : List Char) (e : Nat) :
    (maskFrontMatter data e).length = data.length := by
  induction data generalizing e with
  | nil => simp [maskFrontMatter]
  | cons hd tl ih =>
    cases e with
    | zero => simp [maskFrontMatter]
    | succ e' => simp [maskFrontMatter, ih e']

/-- Claim C9: whenever the front matter decodes successfully, the returned
buffer has the same length as the input, newlines at exactly the same
positions, every non-newline byte inside the front-matter span
(`data[:e]`, `e` the end of the `frontEnd` match) replaced by a space, and
every byte after the span unchanged. -/
theorem c9_front_matter_mask (decode : List Char → Except String Unit)
    (data data' : List Char) (e : Nat)
    (hok : readFileWithFrontMatter decode data = .ok (data', true))
    (he : frontEndIdx data = some e) :
    maskSpec data data' e := by
  rw [readFileWithFrontMatter] at hok
  cases hfs : hasFrontStart data with
  | false => simp [hfs] at hok
  | true =>
    rw [hfs] at hok
    simp only [Bool.true_eq_false, if_false] at hok
    rw [he] at hok
    dsimp only at hok
    cases hdec : decode (data.take e) with
    | error err => rw [hdec] at hok; exact absurd hok (by simp)
    | ok u =>
      rw [hdec] at hok
      have hdata' : data' = maskFrontMatter data e := by
        have := hok
        simp only [Except.ok.injEq, Prod.mk.injEq] at this
        exact this.1.symm
      subst hdata'
      refine ⟨maskFrontMatter_length data e, ?_, ?_, ?_⟩
      · intro i _
        rw [maskFrontMatter_get?]
        by_cases hi : i < e
        · simp only [hi, if_true]
          cases hc : data.get? i with
          | none => simp
          | some c =>
            by_cases hcn : c = '\n' <;> simp [hcn]
        · simp [hi]
      · intro i hi c hc hcn
        rw [maskFrontMatter_get?, if_pos hi, hc]
        simp [hcn]
      · intro i hi
        rw [maskFrontMatter_get?, if_neg (by omega)]

/-- Witness for claim C9 at the concrete file `"{\n}\nbody"`: the extractor
succeeds, the front-matter span ends at offset 3, and the mask frame
conditions hold. -/
theorem c9_front_matter_mask_witness :
    readFileWithFrontMatter (fun _ => Except.ok ()) "\x7b\n\x7d\nbody".toList =
        .ok ([' ', '\n', ' ', '\n', 'b', 'o', 'd', 'y'], true) ∧
      frontEndIdx "\x7b\n\x7d\nbody".toList = some 3 ∧
      maskSpec "\x7b\n\x7d\nbody".toList [' ', '\n', ' ', '\n', 'b', 'o', 'd', 'y'] 3 := by
  refine ⟨by rfl, by rfl, ?_⟩
  have h := c9_front_matter_mask (fun _ => Except.ok ()) "\x7b\n\x7d\nbody".toList
    [' ', '\n', ' ', '\n', 'b', 'o', 'd', 'y'] 3 (by rfl) (by rfl)
  exact h

/-! ## The action language scanner (package `action`, src/unnamed/part_009)

Positions are character offsets into the fixed `input`; for the ASCII inputs
modelled here they coincide with Go's byte offsets, and `utf8.DecodeRune`
corresponds to reading one `Char`.  The scanner is always constructed with
the default delimiters `<%` and `%>` (`newScanner(input, fpath, "", "")` in
`Parse`), so the delimiters are fixed in the embedding. -/

/-- Replacement character returned by `utf8.DecodeRune` on empty input. -/
def runeError : Char := Char.ofNat 0xFFFD

/-- Model of `utf8.DecodeRune(s.input[pos:])`: the character at `pos`, or
the replacement character at end of input. -/
def decodeRune (input : List Char) (pos : Nat) : Char :=
  match input.get? pos with
  | some c => c
  | none => runeError

/-- Index of the last occurrence of `c` (`bytes.LastIndex`), if any. -/
def lastIdxOf (cs : List Char) (c : Char) : Option Nat :=
  match cs.reverse.findIdx? (fun x => x = c) with
  | none => none
  | some j => some (cs.length - 1 - j)

/-- Embedding of `loc(fpath, input, pos)`: the `path:line:col` string, the
column measured from the previous newline (raw offset on the first line). -/
def loc (fpath : String) (input : List Char) (pos : Nat) : String :=
  let s := input.take pos
  let col := match lastIdxOf s '\n' with
    | none => pos
    | some idx => pos - idx
  let line := 1 + (s.filter (fun x => x = '\n')).length
  fpath ++ ":" ++ toString line ++ ":" ++ toString col

/-- Argument value with the byte offset at which its specification starts. -/
structure Value where
  Text : String
  pos : Nat
deriving DecidableEq, Repr

/-- One parsed action: a name, an argument map, literal text (for text
actions) and the byte offset at which the action starts. -/
structure Action where
  Name : String
  Args : List (String × Value)
  Text : List Char
  pos : Nat
deriving DecidableEq, Repr

/-- Name of the literal-text pseudo-action. -/
def TextAction : String := "__text__"

/-- Whitespace recognized by `scanner.skipSpace`. -/
def isActionSpace (c : Char) : Bool :=
  c = '\r' || c = '\n' || c = ' ' || c = '\t'

/-- Model of `scanner.skipSpace`: the new position and whether any
whitespace was skipped. -/
def skipSpace (input : List Char) (pos : Nat) : Nat × Bool :=
  let c := ((input.drop pos).takeWhile isActionSpace).length
  (pos + c, decide (0 < c))

/-- `isActionNameStart` (`unicode.IsLetter`, ASCII range). -/
def isActionNameStart (c : Char) : Bool := c.isAlpha

/-- `isActionName`: letter, digit, `-`, `:` or `_`. -/
def isActionName (c : Char) : Bool :=
  c = '-' || c = ':' || c = '_' || c.isAlpha || c.isDigit

/-- `isArgumentNameStart` (`unicode.IsLetter`, ASCII range); note the
package documentation of `action` additionally promises a leading `_`. -/
def isArgumentNameStart (c : Char) : Bool := c.isAlpha

/-- `isArgumentName`: letter, digit, `-`, `:` or `_`. -/
def isArgumentName (c : Char) : Bool :=
  c = '-' || c = ':' || c = '_' || c.isAlpha || c.isDigit

/-- Test for the right delimiter `%>` at `pos`
(`bytes.HasPrefix(s.input[s.pos:], s.rightDelim)`). -/
def hasRightDelim (input : List Char) (pos : Nat) : Bool :=
  ['%', '>'].isPrefixOf (input.drop pos)

/-- Model of `scanner.scanActionName`: reads an action-name identifier at
`pos`, returning the name and the position after it. -/
def scanActionName (fpath : String) (input : List Char) (pos : Nat) :
    Except String (String × Nat) :=
  let r := decodeRune input pos
  if isActionNameStart r = false then
    .error (loc fpath input pos ++ ": expected start of action name, found " ++
      String.singleton r)
  else
    let run := ((input.drop (pos + 1)).takeWhile isActionName).length
    .ok (String.mk ((input.drop pos).take (1 + run)), pos + 1 + run)

/-- Model of `scanner.scanArgumentName`.  Returns `none` when the right
delimiter ends the action (Go's `done` flag), otherwise the argument name;
the returned position is past the consumed input. -/
def scanArgumentName (fpath : String) (input : List Char) (pos : Nat) :
    Except String (Option String × Nat) :=
  let pos0 := pos
  let sp := skipSpace input pos
  let pos1 := sp.1
  if hasRightDelim input pos1 then .ok (none, pos1 + 2)
  else if input.length ≤ pos1 then
    .error (loc fpath input pos0 ++ ": reached EOF looking for argument name")
  else if sp.2 = false then
    .error (loc fpath input pos0 ++ ": expected space before start of argument name")
  else
    let r := decodeRune input pos1
    if isArgumentNameStart r = false then
      .error (loc fpath input pos0 ++ ": expected start of argument name, found " ++
        String.singleton r)
    else
      let run := ((input.drop (pos1 + 1)).takeWhile isArgumentName).length
      .ok (some (String.mk ((input.drop pos1).take (1 + run))), pos1 + 1 + run)

/-- Model of `scanner.scanEqual`.  Returns `true` when the right delimiter
appeared where `=` was expected (ending the action). -/
def scanEqual (fpath : String) (input : List Char) (pos : Nat) :
    Except String (Bool × Nat) :=
  let pos0 := pos
  let pos1 := (skipSpace input pos).1
  if hasRightDelim input pos1 then .ok (true, pos1 + 2)
  else if input.length ≤ pos1 then
    .error (loc fpath input pos0 ++ ": reached EOF looking for =")
  else
    let r := decodeRune input pos1
    if r ≠ '=' then
      .error (loc fpath input pos0 ++ ": expected =, found " ++ String.singleton r)
    else .ok (false, pos1 + 1)

/-- Terminator set for unquoted values: whitespace, quotes, backtick, `=`,
and every character of either delimiter (`<`, `%`, `>`).  The backtick and
single quote are written by code point. -/
def unquoteTerm (c : Char) : Bool :=
  c = ' ' || c = '\t' || c = '\r' || c = '\n' || c = '"' || c = Char.ofNat 39 ||
    c = Char.ofNat 96 || c = '=' || c = '<' || c = '%' || c = '>'

/-- Model of `html.UnescapeString` for the five predefined entities; the
identity on input containing none of them.  (The Go function resolves every
named HTML entity; the action arguments exercised in this development use at
most these five.) -/
def htmlUnescape : List Char → List Char
  | [] => []
  | '&' :: 'a' :: 'm' :: 'p' :: ';' :: rest => '&' :: htmlUnescape rest
  | '&' :: 'l' :: 't' :: ';' :: rest => '<' :: htmlUnescape rest
  | '&' :: 'g' :: 't' :: ';' :: rest => '>' :: htmlUnescape rest
  | '&' :: 'q' :: 'u' :: 'o' :: 't' :: ';' :: rest => '"' :: htmlUnescape rest
  | '&' :: 'a' :: 'p' :: 'o' :: 's' :: ';' :: rest => Char.ofNat 39 :: htmlUnescape rest
  | c :: rest => c :: htmlUnescape rest

/-- Model of `scanner.scanQuotedValue`: everything up to the matching quote
character, no in-value escaping. -/
def scanQuotedValue (fpath : String) (input : List Char) (pos : Nat) :
    Except String (List Char × Nat) :=
  let q := decodeRune input pos
  match (input.drop (pos + 1)).findIdx? (fun x => x = q) with
  | none =>
    .error (loc fpath input pos ++ ": reached EOF looking for close quote " ++
      String.singleton q)
  | some i => .ok ((input.drop (pos + 1)).take i, pos + 1 + i + 1)

/-- Model of `scanner.scanUnquotedValue`: a maximal nonempty run of
non-terminator characters. -/
def scanUnquotedValue (fpath : String) (input : List Char) (pos : Nat) :
    Except String (List Char × Nat) :=
  let run := ((input.drop pos).takeWhile (fun c => unquoteTerm c = false)).length
  if input.length ≤ pos + run then
    .error (loc fpath input pos ++ ": reached EOF looking for end of value")
  else if run = 0 then
    .error (loc fpath input pos ++ ": expected value following =, found " ++
      String.singleton (decodeRune input pos))
  else .ok ((input.drop pos).take run, pos + run)

/-- Model of `scanner.scanArgumentValue`: quoted or unquoted value, then
HTML-entity unescaping. -/
def scanArgumentValue (fpath : String) (input : List Char) (pos : Nat) :
    Except String (String × Nat) :=
  let pos0 := pos
  let pos1 := (skipSpace input pos).1
  if input.length ≤ pos1 then
    .error (loc fpath input pos0 ++ ": reached EOF looking for argument value")
  else
    let b := decodeRune input pos1
    let res := if b = Char.ofNat 39 || b = '"' then scanQuotedValue fpath input pos1
      else scanUnquotedValue fpath input pos1
    match res with
    | .error e => .error e
    | .ok (val, pos2) => .ok (String.mk (htmlUnescape val), pos2)

/-- Argument loop of `scanner.scanAction`, with fuel for the recursion (the
loop consumes at least one character per iteration, so `input.length + 1`
fuel always suffices). -/
def scanArgsF (fpath : String) (input : List Char) :
    Nat → Nat → List (String × Value) → Except String (List (String × Value) × Nat)
  | 0, _, _ => .error "out of fuel"
  | fuel + 1, pos, args =>
    match scanArgumentName fpath input pos with
    | .error e => .error e
    | .ok (none, pos') => .ok (args, pos')
    | .ok (some name, pos1) =>
      match scanEqual fpath input pos1 with
      | .error e => .error e
      | .ok (true, pos') => .ok (args, pos')
      | .ok (false, pos2) =>
        match scanArgumentValue fpath input pos2 with
        | .error e => .error e
        | .ok (text, pos3) =>
          scanArgsF fpath input fuel pos3 (setKey args name (Value.mk text pos2))

/-- Model of `scanner.scanAction`: skip whitespace, read the action name,
then run the argument loop. -/
def scanAction (fpath : String) (input : List Char) (pos : Nat) :
    Except String (Action × Nat) :=
  let pos1 := (skipSpace input pos).1
  match scanActionName fpath input pos1 with
  | .error e => .error e
  | .ok (name, pos2) =>
    match scanArgsF fpath input (input.length + 1) pos2 [] with
    | .error e => .error e
    | .ok (args, pos3) => .ok (Action.mk name args [] pos1, pos3)

/-- First position at which the left delimiter `<%` occurs
(`bytes.Index(s.input[s.pos:], s.leftDelim)` relative to the slice). -/
def indexOfLeftDelim : List Char → Option Nat
  | [] => none
  | '<' :: '%' :: _ => some 0
  | _ :: rest => (indexOfLeftDelim rest).map (fun i => i + 1)

/-- Model of `scanner.scanText`: the literal text before the next action,
the new position, and whether a left delimiter was found. -/
def scanText (input : List Char) (pos : Nat) : List Char × Nat × Bool :=
  match indexOfLeftDelim (input.drop pos) with
  | none => (input.drop pos, input.length, false)
  | some i => ((input.drop pos).take i, pos + i + 2, true)

/-- Main loop of `scanner.scan`, with fuel (each iteration that continues
consumes the two delimiter characters, so `input.length + 1` fuel always
suffices). -/
def scanF (fpath : String) (input : List Char) :
    Nat → Nat → List Action → Except String (List Action)
  | 0, _, _ => .error "out of fuel"
  | fuel + 1, pos, acc =>
    let st := scanText input pos
    let acc1 := if 0 < st.1.length then acc ++ [Action.mk TextAction [] st.1 pos] else acc
    if st.2.2 then
      match scanAction fpath input st.2.1 with
      | .error e => .error e
      | .ok (a, pos2) => scanF fpath input fuel pos2 (acc1 ++ [a])
    else .ok acc1

/-- Embedding of `action.Parse` (with the default delimiters): the ordered
action sequence, or the first located error. -/
def Parse (input : List Char) (fpath : String) : Except String (List Action) :=
  scanF fpath input (input.length + 1) 0 []

/-! ## Page metadata and the `set` action (src/site/page.go)

`time.Time` values are modelled by `GoTime`; the zero `time.Time`
(January 1 of year 1, 00:00:00 UTC) is `GoTime.zero`. -/

/-- Location context of a parse: the file path and the original input
(`action.LocationContext`). -/
structure LocationContext where
  fpath : String
  input : List Char

/-- `Value.Location`: resolve the value's offset against the original
buffer. -/
def Value.Location (v : Value) (lc : LocationContext) : String :=
  loc lc.fpath lc.input v.pos

/-- `Action.Location`: resolve the action's offset against the original
buffer. -/
def Action.Location (a : Action) (lc : LocationContext) : String :=
  loc lc.fpath lc.input a.pos

/-- Broken-down time as produced by parsing an RFC3339 timestamp. -/
structure GoTime where
  year : Nat
  month : Nat
  day : Nat
  hour : Nat
  minute : Nat
  second : Nat
  fracNum : Nat
  fracDigits : Nat
  offMinutes : Int
deriving DecidableEq, Repr

/-- The zero `time.Time`. -/
def GoTime.zero : GoTime :=
  { year := 1, month := 1, day := 1, hour := 0, minute := 0, second := 0,
    fracNum := 0, fracDigits := 0, offMinutes := 0 }

/-- Two ASCII digits as a number. -/
def num2 (a b : Char) : Option Nat :=
  if a.isDigit && b.isDigit then some ((a.toNat - 48) * 10 + (b.toNat - 48)) else none

/-- Four ASCII digits as a number. -/
def num4 (a b c d : Char) : Option Nat :=
  match num2 a b, num2 c d with
  | some hi, some lo => some (hi * 100 + lo)
  | _, _ => none

/-- Gregorian leap-year test. -/
def isLeapYear (y : Nat) : Bool :=
  y % 4 = 0 && (y % 100 ≠ 0 || y % 400 = 0)

/-- Number of days in a month. -/
def daysIn (y mo : Nat) : Nat :=
  if mo = 2 then (if isLeapYear y then 29 else 28)
  else if mo = 4 || mo = 6 || mo = 9 || mo = 11 then 30
  else 31

/-- Time-zone part of an RFC3339 timestamp: `Z` or `±hh:mm`, as an offset
in minutes. -/
def parseZone : List Char → Option Int
  | ['Z'] => some 0
  | ['+', h1, h2, ':', m1, m2] =>
    match num2 h1 h2, num2 m1 m2 with
    | some h, some m => if h ≤ 23 && m ≤ 59 then some (h * 60 + m) else none
    | _, _ => none
  | ['-', h1, h2, ':', m1, m2] =>
    match num2 h1 h2, num2 m1 m2 with
    | some h, some m => if h ≤ 23 && m ≤ 59 then some (-(h * 60 + m : Int)) else none
    | _, _ => none
  | _ => none

/-- Numeric value of a digit run. -/
def digitsVal (ds : List Char) : Nat :=
  ds.foldl (fun acc c => acc * 10 + (c.toNat - 48)) 0

/-- Optional fractional-seconds part followed by the zone: `.d+` then zone. -/
def parseFracZone : List Char → Option (Nat × Nat × Int)
  | '.' :: rest =>
    let ds := rest.takeWhile Char.isDigit
    if ds.isEmpty then none
    else
      match parseZone (rest.drop ds.length) with
      | some off => some (digitsVal ds, ds.length, off)
      | none => none
  | rest =>
    match parseZone rest with
    | some off => some (0, 0, off)
    | none => none

/-- Model of `time.Parse(time.RFC3339, s)`: strict
`yyyy-mm-ddThh:mm:ss[.frac](Z|±hh:mm)` with range validation.  (Go also
accepts a lower-case `t`/`z` only in later stdlib versions' lenient paths;
this model keeps the strict layout match.) -/
def parseRFC3339Chars : List Char → Option GoTime
  | y1 :: y2 :: y3 :: y4 :: '-' :: m1 :: m2 :: '-' :: d1 :: d2 :: 'T' ::
      h1 :: h2 :: ':' :: n1 :: n2 :: ':' :: s1 :: s2 :: rest =>
    match num4 y1 y2 y3 y4, num2 m1 m2, num2 d1 d2,
        num2 h1 h2, num2 n1 n2, num2 s1 s2 with
    | some y, some mo, some d, some h, some mi, some sec =>
      if 1 ≤ mo && mo ≤ 12 && 1 ≤ d && d ≤ daysIn y mo &&
          h ≤ 23 && mi ≤ 59 && sec ≤ 59 then
        match parseFracZone rest with
        | some (fn, fd, off) =>
          some { year := y, month := mo, day := d, hour := h, minute := mi,
                 second := sec, fracNum := fn, fracDigits := fd, offMinutes := off }
        | none => none
      else none
    | _, _, _, _, _, _ => none
  | _ => none

/-- RFC3339 parsing on strings. -/
def parseRFC3339 (s : String) : Option GoTime :=
  parseRFC3339Chars s.toList

/-- Model of Go's `%q` for the identifier-like strings used here. -/
def goQuote (s : String) : String := "\"" ++ s ++ "\""

/-- Model of `strings.HasPrefix`. -/
def goHasPrefix (s pre : String) : Bool := pre.toList.isPrefixOf s.toList

/-- Model of `strings.HasSuffix`. -/
def goHasSuffix (s suf : String) : Bool := suf.toList.isSuffixOf s.toList

/-- Page metadata (`site.Page`, src/site/page.go lines 18-39); the scratch
pointer carries no metadata and is not modelled. -/
structure Page where
  Title : String
  Subtitle : String
  Created : GoTime
  Updated : GoTime
  Path : String
  Content : String
deriving DecidableEq, Repr

/-- Embedding of `Page.set` (src/site/page.go lines 98-129).  The Go code
ranges over the argument map in unspecified order; the embedding processes
the action's arguments in their parse order.  Note the `updated` case: like
the source, it assigns the parsed time into `Created`. -/
def Page.set (p : Page) (args : List (String × Value)) (lc : LocationContext) :
    Except String Page :=
  match args with
  | [] => .ok p
  | (k, v) :: rest =>
    if k = "title" then Page.set { p with Title := v.Text } rest lc
    else if k = "subtitle" then Page.set { p with Subtitle := v.Text } rest lc
    else if k = "created" then
      match parseRFC3339 v.Text with
      | none => .error (v.Location lc ++ ": parsing time error")
      | some t => Page.set { p with Created := t } rest lc
    else if k = "updated" then
      match parseRFC3339 v.Text with
      | none => .error (v.Location lc ++ ": parsing time error")
      | some t => Page.set { p with Created := t } rest lc
    else if k = "path" then
      if goHasPrefix v.Text "/" = false then
        .error (v.Location lc ++ ": page path must start with \"/\"")
      else Page.set { p with Path := v.Text } rest lc
    else if k = "layout" then Page.set p rest lc
    else .error (v.Location lc ++ ": unknown argument " ++ goQuote k)

/-- Model of Go `path.Base`. -/
def pathBase (p : String) : String :=
  if p = "" then "."
  else
    let cs := (p.toList.reverse.dropWhile (fun c => c = '/')).reverse
    if cs.isEmpty then "/"
    else String.mk (cs.reverse.takeWhile (fun c => c ≠ '/')).reverse

/-- Initial page value built by `site.processPage` (src/site/page.go lines
135-139) for a resource discovered at `rpath`. -/
def pageInit (rpath : String) : Page :=
  { Title := pathBase rpath, Subtitle := "", Created := GoTime.zero,
    Updated := GoTime.zero, Path := rpath, Content := "" }

/-! ## Page registry (claim C6) -/

/-- Resource record (`site.Resource`, src/unnamed/part_004); only the fields
touched by `processPage` are modelled. -/
structure Resource where
  Path : String
  ModTime : Nat
  Size : Nat
  FilePath : String
  Data : List Char
deriving DecidableEq, Repr

/-- Modelled from the spec: `site.addPage`, called by `processPage`
(src/site/page.go:220), is not among the sources; spec section 4.5 describes
the Page Registry operation `Insert(path, page)` as storing the page under
the given path, and `pageFuncs.Read` reads the same `site.pages` map. -/
def addPage (pages : List (String × Page)) (path : String) (p : Page) :
    List (String × Page) :=
  setKey pages path p

/-- Embedding of the registration tail of `site.processPage`
(src/site/page.go lines 212-222): store the rendered bytes on the resource,
reset its modification time, move the page's (possibly `set`-overridden)
path onto the resource, and insert the page into the registry under the
original query path.  `data` stands for the minifier's output, which is
outside this model. -/
def processPageTail (pages : List (String × Page)) (r : Resource) (p : Page)
    (data : List Char) : List (String × Page) × Resource :=
  let r' := { r with Data := data, Size := data.length, ModTime := 0, Path := p.Path }
  (addPage pages r.Path p, r')

/-- Embedding of `pageFuncs.Read` (src/unnamed/part_006 lines 183-197):
append `index.html` to directory queries, look the page up in the registry,
and return a copy whose `Path` is the query path. -/
def pageFuncsRead (pages : List (String × Page)) (upath : String) :
    Except String Page :=
  let upath := if goHasSuffix upath "/" then upath ++ "index.html" else upath
  match lookupKey pages upath with
  | none => .error ("page " ++ goQuote upath ++ " not found")
  | some p => .ok { p with Path := upath }

/-! ## Claims about `set`, the registry and the scanner -/

/-- Claim C1 (code-bug demonstration): applying a `set` action whose sole
argument is the valid RFC3339 timestamp `updated="2020-01-02T03:04:05Z"`
stores the parsed time in `Created` and leaves `Updated` at its previous
(zero) value: `Page.set` assigns the `updated` argument into the `Created`
field (src/site/page.go line 113) and never writes `Updated`. -/
theorem c1_updated_assigned_to_created :
    Parse "<%set updated=\"2020-01-02T03:04:05Z\"%>".toList "p.html" =
        .ok [Action.mk "set" [("updated", Value.mk "2020-01-02T03:04:05Z" 14)] [] 2] ∧
      parseRFC3339 "2020-01-02T03:04:05Z" = some (GoTime.mk 2020 1 2 3 4 5 0 0 0) ∧
      Page.set (pageInit "/p.html")
          [("updated", Value.mk "2020-01-02T03:04:05Z" 14)]
          (LocationContext.mk "p.html" "<%set updated=\"2020-01-02T03:04:05Z\"%>".toList) =
        .ok { pageInit "/p.html" with Created := GoTime.mk 2020 1 2 3 4 5 0 0 0 } ∧
      ({ pageInit "/p.html" with
          Created := GoTime.mk 2020 1 2 3 4 5 0 0 0 }).Updated = GoTime.zero :=
  ⟨rfl, rfl, rfl, rfl⟩

/-- Claim C6, counterexample: a successfully processed page discovered at
`/a.html` whose `set` action overrides the output path to `/b.html` is not
in the registry under the final path `/b.html` afterwards —
`processPage` inserts the page under the original query path. -/
theorem c6_counterexample :
    Page.set (pageInit "/a.html") [("path", Value.mk "/b.html" 12)]
        (LocationContext.mk "a.html" []) =
      .ok { pageInit "/a.html" with Path := "/b.html" } ∧
    lookupKey
        (processPageTail [] (Resource.mk "/a.html" 7 0 "a.html" [])
          { pageInit "/a.html" with Path := "/b.html" } ['x']).1 "/b.html" = none ∧
    pageFuncsRead
        (processPageTail [] (Resource.mk "/a.html" 7 0 "a.html" [])
          { pageInit "/a.html" with Path := "/b.html" } ['x']).1 "/b.html" =
      .error "page \"/b.html\" not found" :=
  ⟨rfl, rfl, rfl⟩

/-- Claim C6 (amended): after a successful `processPage` the registry
contains the page under the original discovery path (the resource path the
page was found at), so a later page query for the discovery path finds it;
the final (possibly `set`-overridden) output path is recorded in the page's
own `Path` field and on the resource, not as the registry key. -/
theorem c6_registry_discovery_path (pages : List (String × Page)) (r : Resource)
    (p : Page) (data : List Char) (h : goHasSuffix r.Path "/" = false) :
    lookupKey (processPageTail pages r p data).1 r.Path = some p ∧
      pageFuncsRead (processPageTail pages r p data).1 r.Path =
        .ok { p with Path := r.Path } ∧
      (processPageTail pages r p data).2.Path = p.Path := by
  refine ⟨lookupKey_setKey_self pages r.Path p, ?_, rfl⟩
  rw [pageFuncsRead]
  simp only [h, Bool.false_eq_true, if_false]
  rw [processPageTail]
  simp only [addPage]
  rw [lookupKey_setKey_self]

/-- Witness for claim C6 (amended) at a concrete registration: the page
overridden to `/b.html` is found under its discovery path `/a.html`. -/
theorem c6_registry_discovery_path_witness :
    goHasSuffix "/a.html" "/" = false ∧
      lookupKey
          (processPageTail [] (Resource.mk "/a.html" 7 0 "a.html" [])
            { pageInit "/a.html" with Path := "/b.html" } ['x']).1 "/a.html" =
        some { pageInit "/a.html" with Path := "/b.html" } :=
  ⟨rfl, (c6_registry_discovery_path [] (Resource.mk "/a.html" 7 0 "a.html" [])
    { pageInit "/a.html" with Path := "/b.html" } ['x'] rfl).1⟩

/-- Claim C7, counterexample: for `<%set bogus="x"%>` the unknown-argument
error carries the location of the argument's value (byte offset 12, column
12), not the location of the name `bogus` (byte offset 6, column 6). -/
theorem c7_counterexample :
    Parse "<%set bogus=\"x\"%>".toList "t.html" =
        .ok [Action.mk "set" [("bogus", Value.mk "x" 12)] [] 2] ∧
      ("<%set bogus=\"x\"%>".toList.drop 6).take 5 = "bogus".toList ∧
      Page.set (pageInit "/t.html") [("bogus", Value.mk "x" 12)]
          (LocationContext.mk "t.html" "<%set bogus=\"x\"%>".toList) =
        .error "t.html:1:12: unknown argument \"bogus\"" ∧
      loc "t.html" "<%set bogus=\"x\"%>".toList 6 = "t.html:1:6" ∧
      ("t.html:1:12: unknown argument \"bogus\"" : String) ≠
        "t.html:1:6: unknown argument \"bogus\"" :=
  ⟨rfl, rfl, rfl, rfl, by decide⟩

/-- Claim C7 (amended): an unknown `set` argument is rejected with an error
located at the argument's value specification (the offset recorded for the
`Value`, immediately after the `=`), not at the `set` action itself. -/
theorem c7_unknown_argument_value_location (p : Page) (lc : LocationContext)
    (k : String) (v : Value) (rest : List (String × Value))
    (h1 : k ≠ "title") (h2 : k ≠ "subtitle") (h3 : k ≠ "created")
    (h4 : k ≠ "updated") (h5 : k ≠ "path") (h6 : k ≠ "layout") :
    Page.set p ((k, v) :: rest) lc =
      .error (v.Location lc ++ ": unknown argument " ++ goQuote k) := by
  rw [Page.set]
  simp [h1, h2, h3, h4, h5, h6]

/-- Witness for claim C7 (amended) at the concrete argument `bogus`. -/
theorem c7_unknown_argument_value_location_witness :
    Page.set (pageInit "/t.html") [("bogus", Value.mk "x" 12)]
        (LocationContext.mk "t.html" "<%set bogus=\"x\"%>".toList) =
      .error ((Value.mk "x" 12).Location
          (LocationContext.mk "t.html" "<%set bogus=\"x\"%>".toList) ++
        ": unknown argument " ++ goQuote "bogus") :=
  c7_unknown_argument_value_location (pageInit "/t.html")
    (LocationContext.mk "t.html" "<%set bogus=\"x\"%>".toList) "bogus"
    (Value.mk "x" 12) [] (by decide) (by decide) (by decide) (by decide)
    (by decide) (by decide)

/-- Claim C8 (code-bug demonstration): the `action` package documentation
promises argument names may begin with `_`, but `isArgumentNameStart`
accepts only letters, so `<%a _b=c%>` is rejected with a located syntax
error instead of being parsed with argument `_b`. -/
theorem c8_underscore_argument_rejected :
    isArgumentNameStart '_' = false ∧
      Parse "<%a _b=c%>".toList "t.html" =
        .error "t.html:1:3: expected start of argument name, found _" :=
  ⟨rfl, rfl⟩

/-- Claim C10, counterexample: in `<%a x=1 x%>` the trailing argument name
`x` is followed by the right delimiter instead of `=`; Parse succeeds and
records no value for the trailing occurrence, but the name `x` is present in
the argument map (from its earlier occurrence), so the claim's "the argument
name is absent from the action's argument map" fails. -/
theorem c10_counterexample :
    Parse "<%a x=1 x%>".toList "t.html" =
        .ok [Action.mk "a" [("x", Value.mk "1" 6)] [] 2] ∧
      lookupKey [("x", Value.mk "1" 6)] "x" ≠ none :=
  ⟨rfl, by decide⟩

/-- Claim C10 (amended): when an argument name is followed (after optional
whitespace) by the right delimiter instead of `=`, the argument loop of
`scanAction` ends successfully at that delimiter and records no binding for
the trailing name: the action's argument map is exactly the map accumulated
from the preceding arguments (hence a name not previously bound is absent). -/
theorem c10_dangling_name_no_binding (fpath : String) (input : List Char)
    (fuel pos : Nat) (args : List (String × Value)) (name : String)
    (pos1 pos2 : Nat)
    (hname : scanArgumentName fpath input pos = .ok (some name, pos1))
    (heq : scanEqual fpath input pos1 = .ok (true, pos2)) :
    scanArgsF fpath input (fuel + 1) pos args = .ok (args, pos2) := by
  rw [scanArgsF, hname]
  dsimp only
  rw [heq]

/-- Witness for claim C10 (amended) on `<%a x%>`: the loop entered after the
action name `a` (position 3) sees the dangling name `x`, then the right
delimiter, and returns the empty argument map with the position after
`%>`. -/
theorem c10_dangling_name_no_binding_witness :
    scanArgumentName "t.html" "<%a x%>".toList 3 = .ok (some "x", 5) ∧
      scanEqual "t.html" "<%a x%>".toList 5 = .ok (true, 7) ∧
      scanArgsF "t.html" "<%a x%>".toList 1 3 [] = .ok ([], 7) :=
  ⟨rfl, rfl,
    c10_dangling_name_no_binding "t.html" "<%a x%>".toList 0 3 [] "x" 5 7 rfl rfl⟩

/-! ## Slash-path arithmetic (Go `path` / `filepath` packages)

`path.Clean`, `path.Dir` and `path.Join` modelled over character lists; on
Unix `filepath.Join` coincides with `path.Join` and `filepath.FromSlash` is
the identity, so the same functions serve both packages here. -/

/-- Split a character list on `/` (every separator produces a boundary). -/
def splitSlash : List Char → List (List Char)
  | [] => [[]]
  | '/' :: rest => [] :: splitSlash rest
  | c :: rest =>
    match splitSlash rest with
    | [] => [[c]]
    | g :: gs => (c :: g) :: gs

/-- Join components with `/`. -/
def joinSlash : List (List Char) → List Char
  | [] => []
  | [g] => g
  | g :: gs => g ++ '/' :: joinSlash gs

/-- One step of `path.Clean`'s element processing: drop empty and `.`
elements, let `..` pop a non-`..` stack top (or vanish at the root). -/
def cleanStep (rooted : Bool) (st : List (List Char)) (c : List Char) :
    List (List Char) :=
  if c = [] ∨ c = ['.'] then st
  else if c = ['.', '.'] then
    match st with
    | [] => if rooted then [] else [['.', '.']]
    | top :: rest => if top = ['.', '.'] then c :: st else rest
  else c :: st

/-- Model of Go `path.Clean`. -/
def pathClean (p : String) : String :=
  if p = "" then "."
  else
    let rooted := goHasPrefix p "/"
    let stack := (splitSlash p.toList).foldl (cleanStep rooted) []
    let body := joinSlash stack.reverse
    if rooted then String.mk ('/' :: body)
    else if body = [] then "." else String.mk body

/-- Model of Go `path.Dir`: everything up to and including the final slash,
cleaned; `"."` when there is no slash. -/
def pathDir (p : String) : String :=
  match lastIdxOf p.toList '/' with
  | none => "."
  | some i => pathClean (String.mk (p.toList.take (i + 1)))

/-- Model of Go `path.Join` for two elements: skip empty elements, join with
`/`, then clean; empty when both elements are empty. -/
def pathJoin (a b : String) : String :=
  if a = "" && b = "" then ""
  else if a = "" then pathClean b
  else if b = "" then pathClean a
  else pathClean (a ++ "/" ++ b)

/-- Embedding of `site.toFilePath` (src/unnamed/part_000 lines 50-52):
`filepath.Join(s.dir, filepath.FromSlash(upath[1:]))`. -/
def toFilePath (dir upath : String) : String :=
  pathJoin dir (String.mk (upath.toList.drop 1))

/-! ## The layout resolver (`site.readTemplate`, src/unnamed/part_000)

A parsed template (`site.template`, src/site/template.go lines 49-53) is
modelled by the list of layout files parsed into its template set, whether
its root is the file's own body (Go: whether `result.clone` was set to `t1`),
and the chain's maximum modification time.  The template-host objects
themselves (`html/template`) are external and not modelled. -/

/-- Model of a parsed `site.template` value. -/
structure TEntry where
  chain : List String
  rootOwn : Bool
  modTime : Nat
deriving DecidableEq, Repr

/-- Model of `maxTime` (src/unnamed/part_000 lines 124-129): `a.After(b)`
picks `a` exactly when `a` is strictly later. -/
def maxTime (a b : Nat) : Nat := if b < a then a else b

/-- The shared base template (`baseTemplate`, src/site/template.go line
115): empty template set, zero modification time. -/
def baseTemplate : TEntry := { chain := [], rootOwn := false, modTime := 0 }

/-- What the resolver needs of a layout file on disk: its modification time
(`os.Stat`), whether its front matter decodes, its declared parent layout,
whether its body parses in the template host, and whether its body is
effectively non-empty (some non-text node or non-whitespace text). -/
structure FileEntry where
  modTime : Nat
  fmOk : Bool
  layout : String
  parseOk : Bool
  nonempty : Bool
deriving DecidableEq, Repr

/-- The file system visible to the resolver: file path to entry. -/
abbrev Files := List (String × FileEntry)

/-- The template cache (`site.templates`): `none` is the in-progress
sentinel (`s.templates[fpath] = nil`). -/
abbrev TemplMap := List (String × Option TEntry)

/-- Embedding of `template.parse` (src/site/template.go lines 55-79): clone
the parent's pristine template set, parse this file's body into the clone
(recorded by appending `fpath` to the chain), keep the parent's root when
the body is effectively empty, and take the maximum modification time. -/
def tparse (fpath : String) (modTime : Nat) (fe : FileEntry) (parent : TEntry) :
    Except String TEntry :=
  if fe.parseOk = false then .error "template parse error"
  else
    .ok { chain := parent.chain ++ [fpath],
          rootOwn := fe.nonempty,
          modTime := maxTime modTime parent.modTime }

/-- Resolution of a layout reference against the referencing file
(src/unnamed/part_000 lines 142-144): relative references join onto the
referencing path's directory. -/
def resolveUPath (rpath upath : String) : String :=
  if goHasPrefix upath "/" then upath else pathJoin (pathDir rpath) upath

/-- Embedding of `site.readTemplate` (src/unnamed/part_000 lines 137-181),
with fuel for the recursion (the recursion inserts a fresh sentinel for a
statted file before every recursive call, so `files.length + 1` fuel always
suffices).  Returns the result, the updated template cache, and the log of
file reads performed (`readFileWithFrontMatter` calls). -/
def readTemplateF (dir : String) (files : Files) :
    Nat → TemplMap → String → String →
      Except String TEntry × TemplMap × List String
  | 0, tm, _, _ => (.error "out of fuel", tm, [])
  | fuel + 1, tm, rpath, upath =>
    if upath = "" then (.ok baseTemplate, tm, [])
    else
      let upath1 := resolveUPath rpath upath
      let fpath := toFilePath dir upath1
      match lookupKey tm fpath with
      | some none => (.error "recursive layouts", tm, [])
      | some (some t) => (.ok t, tm, [])
      | none =>
        match lookupKey files fpath with
        | none =>
          (.error (toFilePath dir rpath ++ ":1: stat " ++ fpath ++
            ": no such file or directory"), tm, [])
        | some fe =>
          if fe.fmOk = false then (.error "front matter decode error", tm, [fpath])
          else
            let res := readTemplateF dir files fuel (setKey tm fpath none) upath1 fe.layout
            let tm3 := delKey res.2.1 fpath
            match res.1 with
            | .error e => (.error e, tm3, fpath :: res.2.2)
            | .ok parent =>
              match tparse fpath fe.modTime fe parent with
              | .error e => (.error e, tm3, fpath :: res.2.2)
              | .ok t => (.ok t, setKey tm3 fpath (some t), fpath :: res.2.2)

/-- `site.readTemplate` with its always-sufficient fuel. -/
def readTemplate (dir : String) (files : Files) (tm : TemplMap)
    (rpath upath : String) : Except String TEntry × TemplMap × List String :=
  readTemplateF dir files (files.length + 1) tm rpath upath

/-- Embedding of the modification-time flow of `site.readResource`
(src/unnamed/part_000 lines 95-122) for a page with front matter that uses a
layout: `r.ModTime` starts at the page file's own time, is combined with the
resolved chain's time, and finally with the time contributed by on-demand
file lookups during template execution (`fc.modTime`, passed here as
`execMt`; the page body's own parse contributes a zero time).  The rendered
bytes are produced by the external template host and are not modelled. -/
def readResourceModTime (dir : String) (files : Files) (tm : TemplMap)
    (rpath : String) (pageMt : Nat) (layoutRef : String) (execMt : Nat) :
    Except String Nat :=
  match (readTemplate dir files tm rpath layoutRef).1 with
  | .error e => .error e
  | .ok t => .ok (maxTime (maxTime pageMt t.modTime) execMt)

/-! ## Resolver unfolding lemmas -/

theorem readTemplateF_empty (dir : String) (files : Files) (fuel : Nat)
    (tm : TemplMap) (rpath : String) :
    readTemplateF dir files (fuel + 1) tm rpath "" = (.ok baseTemplate, tm, []) := by
  simp [readTemplateF]

theorem readTemplateF_sentinel_hit (dir : String) (files : Files) (fuel : Nat)
    (tm : TemplMap) (rpath upath fpath : String)
    (hu : upath ≠ "")
    (hf : toFilePath dir (resolveUPath rpath upath) = fpath)
    (hhit : lookupKey tm fpath = some none) :
    readTemplateF dir files (fuel + 1) tm rpath upath =
      (.error "recursive layouts", tm, []) := by
  simp only [readTemplateF, hu, if_neg, ite_false, hf, hhit]

theorem readTemplateF_cache_hit (dir : String) (files : Files) (fuel : Nat)
    (tm : TemplMap) (rpath upath fpath : String) (t : TEntry)
    (hu : upath ≠ "")
    (hf : toFilePath dir (resolveUPath rpath upath) = fpath)
    (hhit : lookupKey tm fpath = some (some t)) :
    readTemplateF dir files (fuel + 1) tm rpath upath = (.ok t, tm, []) := by
  simp only [readTemplateF, hu, if_neg, ite_false, hf, hhit]

theorem readTemplateF_step (dir : String) (files : Files) (fuel : Nat)
    (tm : TemplMap) (rpath upath fpath : String) (fe : FileEntry)
    (hu : upath ≠ "")
    (hf : toFilePath dir (resolveUPath rpath upath) = fpath)
    (hmiss : lookupKey tm fpath = none)
    (hfile : lookupKey files fpath = some fe)
    (hfm : fe.fmOk = true) :
    readTemplateF dir files (fuel + 1) tm rpath upath =
      (let res := readTemplateF dir files fuel (setKey tm fpath none)
          (resolveUPath rpath upath) fe.layout
       let tm3 := delKey res.2.1 fpath
       match res.1 with
       | .error e => (.error e, tm3, fpath :: res.2.2)
       | .ok parent =>
         match tparse fpath fe.modTime fe parent with
         | .error e => (.error e, tm3, fpath :: res.2.2)
         | .ok t => (.ok t, setKey tm3 fpath (some t), fpath :: res.2.2)) := by
  simp only [readTemplateF, hu, if_neg, ite_false, hf, hmiss, hfile, hfm,
    Bool.true_eq_false]

theorem readTemplateF_ok_cached (dir : String) (files : Files) (fuel : Nat)
    (tm : TemplMap) (rpath upath : String) (t : TEntry) (tm' : TemplMap)
    (reads : List String)
    (h : readTemplateF dir files fuel tm rpath upath = (.ok t, tm', reads)) :
    (upath = "" ∧ t = baseTemplate ∧ tm' = tm) ∨
      (upath ≠ "" ∧
        lookupKey tm' (toFilePath dir (resolveUPath rpath upath)) = some (some t)) := by
  cases fuel with
  | zero => exact absurd h (by simp [readTemplateF])
  | succ fuel =>
    by_cases hu : upath = ""
    · subst hu
      rw [readTemplateF_empty] at h
      simp only [Prod.mk.injEq, Except.ok.injEq] at h
      exact Or.inl ⟨rfl, h.1.symm, h.2.1.symm⟩
    · refine Or.inr ⟨hu, ?_⟩
      rw [readTemplateF] at h
      simp only [hu, if_neg, ite_false] at h
      cases hcache : lookupKey tm (toFilePath dir (resolveUPath rpath upath)) with
      | some o =>
        cases o with
        | none => rw [hcache] at h; simp at h
        | some t0 =>
          rw [hcache] at h
          simp only [Prod.mk.injEq, Except.ok.injEq] at h
          rw [← h.2.1, hcache, h.1]
      | none =>
        rw [hcache] at h
        dsimp only at h
        cases hfile : lookupKey files (toFilePath dir (resolveUPath rpath upath)) with
        | none => rw [hfile] at h; simp at h
        | some fe =>
          rw [hfile] at h
          dsimp only at h
          cases hfm : fe.fmOk with
          | false => rw [hfm] at h; simp at h
          | true =>
            rw [hfm] at h
            simp only [Bool.true_eq_false, if_false] at h
            cases hres : (readTemplateF dir files fuel
                (setKey tm (toFilePath dir (resolveUPath rpath upath)) none)
                (resolveUPath rpath upath) fe.layout).1 with
            | error e => rw [hres] at h; simp at h
            | ok parent =>
              rw [hres] at h
              dsimp only at h
              cases hp : tparse (toFilePath dir (resolveUPath rpath upath))
                  fe.modTime fe parent with
              | error e => rw [hp] at h; simp at h
              | ok t1 =>
                rw [hp] at h
                simp only [Prod.mk.injEq, Except.ok.injEq] at h
                rw [← h.2.1, ← h.1]
                exact lookupKey_setKey_self _ _ _

/-- Claim C4: a second resolution of the same layout path within one build
pass returns the identical template entry (same parsed file set, root choice
and modification time), leaves the cache unchanged, and performs no further
file reads. -/
theorem c4_cache_idempotent (dir : String) (files : Files) (tm : TemplMap)
    (rpath upath : String) (t : TEntry) (tm' : TemplMap) (reads : List String)
    (h : readTemplate dir files tm rpath upath = (.ok t, tm', reads)) :
    readTemplate dir files tm' rpath upath = (.ok t, tm', []) := by
  rcases readTemplateF_ok_cached dir files (files.length + 1) tm rpath upath
      t tm' reads h with ⟨hu, ht, htm⟩ | ⟨hu, hhit⟩
  · subst hu; subst ht; subst htm
    exact readTemplateF_empty dir files files.length tm' rpath
  · exact readTemplateF_cache_hit dir files files.length tm' rpath upath _ t hu rfl hhit

/-- Witness for claim C4: resolving `/a.html` once from an empty cache reads
the file and caches the entry; resolving it again returns the identical
entry with no reads. -/
theorem c4_cache_idempotent_witness :
    readTemplate "." [("a.html", FileEntry.mk 5 true "" true true)] []
        "/index.html" "/a.html" =
      (.ok (TEntry.mk ["a.html"] true 5),
        [("a.html", some (TEntry.mk ["a.html"] true 5))], ["a.html"]) ∧
      readTemplate "." [("a.html", FileEntry.mk 5 true "" true true)]
          [("a.html", some (TEntry.mk ["a.html"] true 5))] "/index.html" "/a.html" =
        (.ok (TEntry.mk ["a.html"] true 5),
          [("a.html", some (TEntry.mk ["a.html"] true 5))], []) :=
  ⟨rfl,
    c4_cache_idempotent "." [("a.html", FileEntry.mk 5 true "" true true)] []
      "/index.html" "/a.html" (TEntry.mk ["a.html"] true 5)
      [("a.html", some (TEntry.mk ["a.html"] true 5))] ["a.html"] rfl⟩

/-! ## Sentinel hygiene and cycle detection (claim C3) -/

theorem readTemplateF_no_new_sentinel (dir : String) (files : Files) :
    ∀ (fuel : Nat) (tm : TemplMap) (rpath upath p : String),
      lookupKey (readTemplateF dir files fuel tm rpath upath).2.1 p = some none →
      lookupKey tm p = some none := by
  intro fuel
  induction fuel with
  | zero => intro tm rpath upath p h; simpa [readTemplateF] using h
  | succ fuel ih =>
    intro tm rpath upath p h
    by_cases hu : upath = ""
    · subst hu; rw [readTemplateF_empty] at h; exact h
    · rw [readTemplateF] at h
      simp only [hu, if_neg, ite_false] at h
      cases hcache : lookupKey tm (toFilePath dir (resolveUPath rpath upath)) with
      | some o =>
        cases o with
        | none => rw [hcache] at h; exact h
        | some t0 => rw [hcache] at h; exact h
      | none =>
        rw [hcache] at h
        dsimp only at h
        cases hfile : lookupKey files (toFilePath dir (resolveUPath rpath upath)) with
        | none => rw [hfile] at h; exact h
        | some fe =>
          rw [hfile] at h
          dsimp only at h
          cases hfm : fe.fmOk with
          | false => rw [hfm] at h; simp only [if_pos rfl] at h; exact h
          | true =>
            rw [hfm] at h
            simp only [Bool.true_eq_false, if_false] at h
            have key : ∀ tmX : TemplMap,
                lookupKey
                  (delKey (readTemplateF dir files fuel
                      (setKey tm (toFilePath dir (resolveUPath rpath upath)) none)
                      (resolveUPath rpath upath) fe.layout).2.1
                    (toFilePath dir (resolveUPath rpath upath))) p = some none →
                lookupKey tm p = some none := by
              intro _ hdel
              by_cases hp : p = toFilePath dir (resolveUPath rpath upath)
              · rw [hp, lookupKey_delKey_self] at hdel; exact absurd hdel (by simp)
              · rw [lookupKey_delKey_ne _ _ _ (fun hcon => hp hcon.symm)] at hdel
                have := ih _ _ _ _ hdel
                rw [lookupKey_setKey_ne _ _ _ _ (fun hcon => hp hcon.symm)] at this
                exact this
            cases hres : (readTemplateF dir files fuel
                (setKey tm (toFilePath dir (resolveUPath rpath upath)) none)
                (resolveUPath rpath upath) fe.layout).1 with
            | error e =>
              rw [hres] at h
              exact key tm h
            | ok parent =>
              rw [hres] at h
              dsimp only at h
              cases hp2 : tparse (toFilePath dir (resolveUPath rpath upath))
                  fe.modTime fe parent with
              | error e =>
                rw [hp2] at h
                exact key tm h
              | ok t1 =>
                rw [hp2] at h
                dsimp only at h
                by_cases hp : p = toFilePath dir (resolveUPath rpath upath)
                · rw [hp, lookupKey_setKey_self] at h
                  exact absurd h (by simp)
                · rw [lookupKey_setKey_ne _ _ _ _ (fun hcon => hp hcon.symm)] at h
                  exact key tm h

/-- A layout chain: starting from the reference `(rpath, upath)`, each listed
file path is the resolution of the previous file's declared layout, and each
listed file is present with decodable front matter. -/
def chainFrom (dir : String) (files : Files) : String → String → List String → Prop
  | _, _, [] => True
  | rpath, upath, q :: rest =>
    upath ≠ "" ∧
    toFilePath dir (resolveUPath rpath upath) = q ∧
    (∃ fe, lookupKey files q = some fe ∧ fe.fmOk = true ∧
      chainFrom dir files (resolveUPath rpath upath) fe.layout rest)

/-- Execution-shaped chain predicate: following the chain with cache `tm`,
every listed file is a cache miss (a fresh sentinel is inserted before
recursing), and the final reference resolves to a path already carrying an
in-progress sentinel. -/
def chainEndsInSentinel (dir : String) (files : Files) :
    TemplMap → String → String → List String → Prop
  | tm, rpath, upath, [] =>
    upath ≠ "" ∧ lookupKey tm (toFilePath dir (resolveUPath rpath upath)) = some none
  | tm, rpath, upath, q :: rest =>
    upath ≠ "" ∧
    toFilePath dir (resolveUPath rpath upath) = q ∧
    lookupKey tm q = none ∧
    (∃ fe, lookupKey files q = some fe ∧ fe.fmOk = true ∧
      chainEndsInSentinel dir files (setKey tm q none) (resolveUPath rpath upath)
        fe.layout rest)

theorem readTemplateF_cycle_error (dir : String) (files : Files) :
    ∀ (cs : List String) (fuel : Nat) (tm : TemplMap) (rpath upath : String),
      chainEndsInSentinel dir files tm rpath upath cs →
      cs.length + 1 ≤ fuel →
      (readTemplateF dir files fuel tm rpath upath).1 = .error "recursive layouts" := by
  intro cs
  induction cs with
  | nil =>
    intro fuel tm rpath upath hc hfuel
    obtain ⟨f, rfl⟩ : ∃ f, fuel = f + 1 := ⟨fuel - 1, by omega⟩
    obtain ⟨hu, hsent⟩ := hc
    rw [readTemplateF_sentinel_hit dir files f tm rpath upath _ hu rfl hsent]
  | cons q rest ih =>
    intro fuel tm rpath upath hc hfuel
    obtain ⟨f, rfl⟩ : ∃ f, fuel = f + 1 := ⟨fuel - 1, by omega⟩
    obtain ⟨hu, hq, hmiss, fe, hfe, hfm, hrec⟩ := hc
    rw [readTemplateF_step dir files f tm rpath upath q fe hu hq hmiss hfe hfm]
    have hres : (readTemplateF dir files f (setKey tm q none)
        (resolveUPath rpath upath) fe.layout).1 = .error "recursive layouts" :=
      ih f (setKey tm q none) (resolveUPath rpath upath) fe.layout hrec
        (by simp at hfuel; omega)
    dsimp only
    rw [hres]

theorem chainFrom_to_sentinel (dir : String) (files : Files) :
    ∀ (cs : List String) (tm : TemplMap) (rpath upath target : String),
      chainFrom dir files rpath upath (cs ++ [target]) →
      (∀ q ∈ cs, lookupKey tm q = none) →
      cs.Nodup →
      (lookupKey tm target = some none ∨ target ∈ cs) →
      chainEndsInSentinel dir files tm rpath upath cs := by
  intro cs
  induction cs with
  | nil =>
    intro tm rpath upath target hchain _ _ hinv
    obtain ⟨hu, hq, _⟩ := hchain
    rcases hinv with hsent | hmem
    · exact ⟨hu, hq ▸ hsent⟩
    · exact absurd hmem (by simp)
  | cons q rest ih =>
    intro tm rpath upath target hchain habsent hnodup hinv
    obtain ⟨hu, hq, fe, hfe, hfm, hrest⟩ := hchain
    refine ⟨hu, hq, habsent q (by simp), fe, hfe, hfm, ?_⟩
    refine ih (setKey tm q none) (resolveUPath rpath upath) fe.layout target hrest
      ?_ (List.Nodup.of_cons hnodup) ?_
    · intro x hx
      have hxq : x ≠ q := by
        intro hcon
        subst hcon
        exact (List.nodup_cons.mp hnodup).1 hx
      rw [lookupKey_setKey_ne _ _ _ _ (fun hcon => hxq hcon.symm)]
      exact habsent x (by simp [hx])
    · by_cases ht : target = q
      · subst ht
        exact Or.inl (lookupKey_setKey_self _ _ _)
      · rcases hinv with hsent | hmem
        · exact Or.inl (by
            rw [lookupKey_setKey_ne _ _ _ _ (fun hcon => ht hcon.symm)]
            exact hsent)
        · rcases List.mem_cons.mp hmem with hcon | hmem2
          · exact absurd hcon ht
          · exact Or.inr hmem2

theorem lookupKey_mem_keys {α : Type} (m : List (String × α)) (k : String) (v : α)
    (h : lookupKey m k = some v) : k ∈ m.map Prod.fst := by
  induction m with
  | nil => simp [lookupKey] at h
  | cons hd tl ih =>
    obtain ⟨k0, v0⟩ := hd
    by_cases hk : k0 = k
    · simp [hk]
    · rw [lookupKey, if_neg hk] at h
      simp [ih h]

theorem nodup_subset_length (l keys : List String) (hnodup : l.Nodup)
    (hsub : ∀ x ∈ l, x ∈ keys) : l.length ≤ keys.length := by
  have h1 : l.toFinset.card = l.length := List.toFinset_card_of_nodup hnodup
  have h2 : l.toFinset ⊆ keys.toFinset := by
    intro x hx
    exact List.mem_toFinset.mpr (hsub x (List.mem_toFinset.mp hx))
  calc l.length = l.toFinset.card := h1.symm
    _ ≤ keys.toFinset.card := Finset.card_le_card h2
    _ ≤ keys.length := List.toFinset_card_le keys

theorem chainFrom_entries (dir : String) (files : Files) :
    ∀ (cs : List String) (rpath upath : String),
      chainFrom dir files rpath upath cs →
      ∀ q ∈ cs, ∃ fe, lookupKey files q = some fe := by
  intro cs
  induction cs with
  | nil => intro rpath upath _ q hq; exact absurd hq (by simp)
  | cons q0 rest ih =>
    intro rpath upath hchain q hq
    obtain ⟨_, _, fe, hfe, _, hrest⟩ := hchain
    rcases List.mem_cons.mp hq with rfl | hq2
    · exact ⟨fe, hfe⟩
    · exact ih (resolveUPath rpath upath) fe.layout hrest q hq2

/-- Claim C3: a layout reference whose inheritance chain returns to the
referencing layout file itself resolves to the "recursive layouts" error
(the fuel supplied by `readTemplate` always suffices, so resolution
terminates), and every in-progress sentinel inserted during resolution is
removed again on both the success and the failure exit path: the final cache
holds no sentinel that was not already present. -/
theorem c3_recursive_layouts (dir : String) (files : Files) (tm : TemplMap)
    (rpath upath q0 : String) (qs : List String)
    (hchain : chainFrom dir files rpath upath ((q0 :: qs) ++ [q0]))
    (hnodup : (q0 :: qs).Nodup)
    (habsent : ∀ q ∈ q0 :: qs, lookupKey tm q = none) :
    (readTemplate dir files tm rpath upath).1 = .error "recursive layouts" ∧
      (∀ p, lookupKey (readTemplate dir files tm rpath upath).2.1 p = some none →
        lookupKey tm p = some none) := by
  constructor
  · have hsent : chainEndsInSentinel dir files tm rpath upath (q0 :: qs) :=
      chainFrom_to_sentinel dir files (q0 :: qs) tm rpath upath q0 hchain habsent
        hnodup (Or.inr (by simp))
    have hmem : ∀ q ∈ q0 :: qs, q ∈ files.map Prod.fst := by
      intro q hq
      obtain ⟨fe, hfe⟩ := chainFrom_entries dir files ((q0 :: qs) ++ [q0])
        rpath upath hchain q (List.mem_append.mpr (Or.inl hq))
      exact lookupKey_mem_keys files q fe hfe
    have hlen : (q0 :: qs).length ≤ files.length := by
      have := nodup_subset_length (q0 :: qs) (files.map Prod.fst) hnodup hmem
      simpa using this
    exact readTemplateF_cycle_error dir files (q0 :: qs) (files.length + 1) tm
      rpath upath hsent (by omega)
  · intro p hp
    exact readTemplateF_no_new_sentinel dir files (files.length + 1) tm rpath upath p hp

/-- Witness for claim C3: the layout `a.html` that declares itself as its own
layout fails with "recursive layouts" and leaves no sentinel in the cache. -/
theorem c3_recursive_layouts_witness :
    (readTemplate "." [("a.html", FileEntry.mk 5 true "/a.html" true true)] []
        "/index.html" "/a.html").1 = .error "recursive layouts" ∧
      lookupKey (readTemplate "." [("a.html", FileEntry.mk 5 true "/a.html" true true)]
          [] "/index.html" "/a.html").2.1 "a.html" ≠ some none := by
  have h := c3_recursive_layouts "." [("a.html", FileEntry.mk 5 true "/a.html" true true)]
    [] "/index.html" "/a.html" "a.html" []
    (by
      refine ⟨by decide, rfl, FileEntry.mk 5 true "/a.html" true true, rfl, rfl, ?_⟩
      exact ⟨by decide, rfl, FileEntry.mk 5 true "/a.html" true true, rfl, rfl, trivial⟩)
    (by simp)
    (fun q _ => rfl)
  refine ⟨h.1, fun hcon => ?_⟩
  have := h.2 "a.html" hcon
  simp [lookupKey] at this

/-! ## Modification-time propagation (claim C5) -/

theorem maxTime_eq_max (a b : Nat) : maxTime a b = max a b := by
  rw [maxTime]
  rcases Nat.lt_or_ge b a with h | h
  · rw [if_pos h, max_eq_left (Nat.le_of_lt h)]
  · rw [if_neg (by omega), max_eq_right h]

theorem max_zero_right (a : Nat) : max a 0 = a :=
  max_eq_left (Nat.zero_le a)

theorem readTemplateF_step_ok (dir : String) (files : Files) (fuel : Nat)
    (tm : TemplMap) (rpath upath fpath : String) (fe : FileEntry)
    (parent : TEntry) (tmI : TemplMap) (readsI : List String)
    (hu : upath ≠ "")
    (hf : toFilePath dir (resolveUPath rpath upath) = fpath)
    (hmiss : lookupKey tm fpath = none)
    (hfile : lookupKey files fpath = some fe)
    (hfm : fe.fmOk = true)
    (hinner : readTemplateF dir files fuel (setKey tm fpath none)
        (resolveUPath rpath upath) fe.layout = (.ok parent, tmI, readsI))
    (hparse : fe.parseOk = true) :
    readTemplateF dir files (fuel + 1) tm rpath upath =
      (.ok (TEntry.mk (parent.chain ++ [fpath]) fe.nonempty
          (maxTime fe.modTime parent.modTime)),
        setKey (delKey tmI fpath) fpath
          (some (TEntry.mk (parent.chain ++ [fpath]) fe.nonempty
            (maxTime fe.modTime parent.modTime))),
        fpath :: readsI) := by
  rw [readTemplateF_step dir files fuel tm rpath upath fpath fe hu hf hmiss hfile hfm]
  dsimp only
  rw [hinner]
  dsimp only
  simp only [tparse, hparse, Bool.true_eq_false, if_false]

/-- Claim C5: for a page using the layout chain leaf → mid → base (with no
on-demand file lookups during execution, `execMt = 0`), the aggregate
modification time recorded for the resource equals the maximum of the page
file's and the three layout files' individual modification times, for any
assignment of modification times to those files. -/
theorem c5_modtime_chain (dir : String) (files : Files) (tm : TemplMap)
    (rpath lref : String) (pageMt : Nat) (fl fmid fb : String)
    (el em eb : FileEntry)
    (hu1 : lref ≠ "")
    (hp1 : toFilePath dir (resolveUPath rpath lref) = fl)
    (hu2 : el.layout ≠ "")
    (hp2 : toFilePath dir (resolveUPath (resolveUPath rpath lref) el.layout) = fmid)
    (hu3 : em.layout ≠ "")
    (hp3 : toFilePath dir
        (resolveUPath (resolveUPath (resolveUPath rpath lref) el.layout) em.layout) = fb)
    (hbase : eb.layout = "")
    (hfl : lookupKey files fl = some el)
    (hfm : lookupKey files fmid = some em)
    (hfb : lookupKey files fb = some eb)
    (hok1 : el.fmOk = true) (hok2 : em.fmOk = true) (hok3 : eb.fmOk = true)
    (hpar1 : el.parseOk = true) (hpar2 : em.parseOk = true) (hpar3 : eb.parseOk = true)
    (ha1 : lookupKey tm fl = none) (ha2 : lookupKey tm fmid = none)
    (ha3 : lookupKey tm fb = none)
    (hd12 : fl ≠ fmid) (hd13 : fl ≠ fb) (hd23 : fmid ≠ fb) :
    readResourceModTime dir files tm rpath pageMt lref 0 =
      .ok (max pageMt (max el.modTime (max em.modTime eb.modTime))) := by
  have hnd : ([fl, fmid, fb] : List String).Nodup := by
    refine List.nodup_cons.mpr ⟨?_, List.nodup_cons.mpr ⟨?_, List.nodup_singleton _⟩⟩
    · intro hmem
      rcases List.mem_cons.mp hmem with h | h
      · exact hd12 h
      · exact hd13 (List.mem_singleton.mp h)
    · intro hmem
      exact hd23 (List.mem_singleton.mp hmem)
  have hsub : ∀ x ∈ ([fl, fmid, fb] : List String), x ∈ files.map Prod.fst := by
    intro x hx
    rcases hx with _ | ⟨_, hx⟩
    · exact lookupKey_mem_keys files fl el hfl
    · rcases hx with _ | ⟨_, hx⟩
      · exact lookupKey_mem_keys files fmid em hfm
      · rcases hx with _ | ⟨_, hx⟩
        · exact lookupKey_mem_keys files fb eb hfb
        · exact absurd hx (List.not_mem_nil x)
  have hlen : 3 ≤ files.length := by
    have := nodup_subset_length [fl, fmid, fb] (files.map Prod.fst) hnd hsub
    simpa using this
  obtain ⟨f, hfuel⟩ : ∃ f, files.length + 1 = f + 4 := ⟨files.length - 3, by omega⟩
  have hm3 : lookupKey (setKey (setKey tm fl none) fmid none) fb = none := by
    rw [lookupKey_setKey_ne _ _ _ _ hd23, lookupKey_setKey_ne _ _ _ _ hd13]
    exact ha3
  have hm2 : lookupKey (setKey tm fl none) fmid = none := by
    rw [lookupKey_setKey_ne _ _ _ _ hd12]
    exact ha2
  have E0 : readTemplateF dir files (f + 1)
      (setKey (setKey (setKey tm fl none) fmid none) fb none)
      (resolveUPath (resolveUPath (resolveUPath rpath lref) el.layout) em.layout)
      eb.layout =
      (.ok baseTemplate,
        setKey (setKey (setKey tm fl none) fmid none) fb none, []) := by
    rw [hbase]
    exact readTemplateF_empty dir files f _ _
  have E1 : readTemplateF dir files (f + 1 + 1)
      (setKey (setKey tm fl none) fmid none)
      (resolveUPath (resolveUPath rpath lref) el.layout) em.layout =
      (.ok (TEntry.mk (baseTemplate.chain ++ [fb]) eb.nonempty
          (maxTime eb.modTime baseTemplate.modTime)),
        setKey (delKey (setKey (setKey (setKey tm fl none) fmid none) fb none) fb) fb
          (some (TEntry.mk (baseTemplate.chain ++ [fb]) eb.nonempty
            (maxTime eb.modTime baseTemplate.modTime))),
        [fb]) :=
    readTemplateF_step_ok dir files (f + 1) _ _ _ fb eb baseTemplate _ _
      hu3 hp3 hm3 hfb hok3 E0 hpar3
  have E2 := readTemplateF_step_ok dir files (f + 1 + 1) (setKey tm fl none)
    (resolveUPath rpath lref) el.layout fmid em _ _ _
    hu2 hp2 hm2 hfm hok2 E1 hpar2
  have E3 := readTemplateF_step_ok dir files (f + 1 + 1 + 1) tm rpath lref fl el _ _ _
    hu1 hp1 ha1 hfl hok1 E2 hpar1
  rw [readResourceModTime, readTemplate, hfuel]
  have hf4 : f + 4 = f + 1 + 1 + 1 + 1 := by omega
  rw [hf4, E3]
  dsimp only
  simp only [maxTime_eq_max, baseTemplate, List.nil_append, max_zero_right]

/-- Witness for claim C5 at a concrete chain `l.html → m.html → b.html` with
modification times 5, 9, 2 and page time 7: the aggregate time is 9. -/
theorem c5_modtime_chain_witness :
    readResourceModTime "."
        [("l.html", FileEntry.mk 5 true "/m.html" true true),
          ("m.html", FileEntry.mk 9 true "/b.html" true true),
          ("b.html", FileEntry.mk 2 true "" true true)] [] "/index.html" 7 "/l.html" 0 =
      .ok 9 := by
  have h := c5_modtime_chain "."
    [("l.html", FileEntry.mk 5 true "/m.html" true true),
      ("m.html", FileEntry.mk 9 true "/b.html" true true),
      ("b.html", FileEntry.mk 2 true "" true true)] [] "/index.html" "/l.html" 7
    "l.html" "m.html" "b.html"
    (FileEntry.mk 5 true "/m.html" true true)
    (FileEntry.mk 9 true "/b.html" true true)
    (FileEntry.mk 2 true "" true true)
    (by decide) rfl (by decide) rfl (by decide) rfl rfl rfl rfl rfl
    rfl rfl rfl rfl rfl rfl rfl rfl rfl (by decide) (by decide) (by decide)
  rw [h]
  rfl

end S3Web
